import Mathlib

/-!
Verification of the gsar pattern compiler, commit protocol and filter-mode
reporting (src/gsar.c).  C strings are modelled as `List Nat` of byte
values (0..255); fallible compilation paths return `Except`.  The pattern
ceiling `PAT_BUFSIZ` lives in a header that is not part of the sources, so
every definition that consults it takes the ceiling as an explicit
parameter `B`.
-/

set_option autoImplicit false

/-- Error taxonomy of the pattern compiler: `malformedPattern` carries the
text the diagnostic names (empty when the message names no character),
`patternTooLong` is the fixed-ceiling overflow abort. -/
inductive GsarErr : Type where
  | malformedPattern : List Nat → GsarErr
  | patternTooLong : GsarErr
deriving DecidableEq, Repr

/-- C-locale `isspace` on a byte (space, tab, LF, VT, FF, CR). -/
def c_isspace (c : Nat) : Bool :=
  decide (c = 32 ∨ (9 ≤ c ∧ c ≤ 13))

/-- C-locale `isdigit` on a byte. -/
def c_isdigit (c : Nat) : Bool :=
  decide (48 ≤ c ∧ c ≤ 57)

/-- C-locale `isxdigit` on a byte. -/
def c_isxdigit (c : Nat) : Bool :=
  decide ((48 ≤ c ∧ c ≤ 57) ∨ (97 ≤ c ∧ c ≤ 102) ∨ (65 ≤ c ∧ c ≤ 70))

/-- C-locale `toupper` on a byte. -/
def c_toupper (c : Nat) : Nat :=
  if 97 ≤ c ∧ c ≤ 122 then c - 32 else c

/-- C-locale `tolower` on a byte. -/
def c_tolower (c : Nat) : Nat :=
  if 65 ≤ c ∧ c ≤ 90 then c + 32 else c

/-- One nibble of `Text2Byte` (gsar.c:384-388): `x = toupper(p) - '0';
x -= (x > 9) ? 7 : 0`.  The intermediate value is a C `int`, so `Int`. -/
def text2ByteNib (c : Nat) : Int :=
  let x : Int := (c_toupper c : Int) - 48
  if x > 9 then x - 7 else x

/-- `Text2Byte` (gsar.c:377-393): folds two bytes into one via
`((x & 0xf) << 4) | (y & 0xf)`; the two nibbles occupy disjoint bit
ranges, so `<< 4` and `|` are `* 16` and `+`, and `& 0xf` is the
two's-complement low nibble, i.e. `emod 16`. -/
def Text2Byte (c0 c1 : Nat) : Nat :=
  ((text2ByteNib c0).emod 16).toNat * 16 + ((text2ByteNib c1).emod 16).toNat

/-- Loop of `ParseHexLine` (gsar.c:406-416): checks `isxdigit` only on the
first byte of each pair (the loop increments `i` twice per iteration but
tests only the entry index), then folds the pair with `Text2Byte`.  The
singleton case is unreachable because the caller has rejected odd
lengths. -/
def parseHexAux : List Nat → Except GsarErr (List Nat)
  | [] => Except.ok []
  | c0 :: rest =>
    if c_isxdigit c0 = false then Except.error (GsarErr.malformedPattern [c0])
    else
      match rest with
      | c1 :: rest2 => (parseHexAux rest2).map (fun bs => Text2Byte c0 c1 :: bs)
      | [] => Except.error (GsarErr.malformedPattern [])

/-- `ParseHexLine` (gsar.c:396-419): aborts on odd length, then runs the
pair-decoding loop.  It performs no length-ceiling check of any kind. -/
def ParseHexLine (s : List Nat) : Except GsarErr (List Nat) :=
  if s.length % 2 = 1 then Except.error (GsarErr.malformedPattern [])
  else parseHexAux s

/-- First byte at an even (pair-initial) index that is not a hex digit;
this is exactly the character `ParseHexLine`'s loop tests and names. -/
def firstBadEven : List Nat → Option Nat
  | [] => none
  | c0 :: rest =>
    if c_isxdigit c0 = false then some c0
    else
      match rest with
      | _ :: rest2 => firstBadEven rest2
      | [] => none

/-- Following the spec's words: decode each adjacent digit pair in order,
one byte per pair. -/
def hexDecodeSpec : List Nat → List Nat
  | c0 :: c1 :: rest => Text2Byte c0 c1 :: hexDecodeSpec rest
  | _ => []

theorem hexDecodeSpec_length : ∀ s : List Nat, (hexDecodeSpec s).length = s.length / 2
  | [] => rfl
  | [_] => by simp [hexDecodeSpec]
  | _ :: _ :: rest => by
    have ih := hexDecodeSpec_length rest
    simp only [hexDecodeSpec, List.length_cons, ih]
    omega

theorem firstBadEven_none_of_all_hex :
    ∀ s : List Nat, (∀ c ∈ s, c_isxdigit c = true) → firstBadEven s = none
  | [], _ => rfl
  | [c], h => by
    have hc : c_isxdigit c = true := h c (by simp)
    simp [firstBadEven, hc]
  | c0 :: c1 :: rest, h => by
    have hc : c_isxdigit c0 = true := h c0 (by simp)
    have ih := firstBadEven_none_of_all_hex rest (fun c hm => h c (by simp [hm]))
    simp [firstBadEven, hc, ih]

theorem parseHexAux_eq :
    ∀ s : List Nat, s.length % 2 = 0 →
      parseHexAux s = (match firstBadEven s with
        | some c => Except.error (GsarErr.malformedPattern [c])
        | none => Except.ok (hexDecodeSpec s))
  | [], _ => rfl
  | [_], h => by simp at h
  | c0 :: c1 :: rest, h => by
    have hrest : rest.length % 2 = 0 := by
      simp only [List.length_cons] at h; omega
    have ih := parseHexAux_eq rest hrest
    by_cases hc : c_isxdigit c0 = false
    · simp [parseHexAux, firstBadEven, hc]
    · simp only [Bool.not_eq_false] at hc
      simp only [parseHexAux, firstBadEven, hc, ih]
      cases firstBadEven rest <;> simp [Except.map, hexDecodeSpec]

/-- Numeric value of a digit run, accumulated left to right the way
`strtol` does.  The bytes are assumed to be decimal digits by the caller;
the fold mirrors `value * 10 + (c - '0')`. -/
def decVal (l : List Nat) : Int :=
  l.foldl (fun a c => a * 10 + ((c : Int) - 48)) 0

/-- Digit-run part of C `strtol(.., 10)` after whitespace skipping: an
optional sign followed by decimal digits that must extend to the very end
of the three-character buffer (`pEnd == number + 3` in gsar.c:356/362
demands full consumption), at least one digit present. -/
def strtol10Run (l : List Nat) : Option Int :=
  match l with
  | [] => none
  | c :: r =>
    if c = 45 then
      if r ≠ [] ∧ r.all c_isdigit then some (-(decVal r)) else none
    else if c = 43 then
      if r ≠ [] ∧ r.all c_isdigit then some (decVal r) else none
    else if (c :: r).all c_isdigit then some (decVal (c :: r)) else none

/-- C `strtol(number, &pEnd, 10)` on the three-byte buffer `[d1, d2, d3]`
(gsar.c:361), returning `some v` exactly when `pEnd == number + 3`:
leading C whitespace is skipped, then an optional sign and a digit run
that must reach the end of the buffer. -/
def strtol10 (d1 d2 d3 : Nat) : Option Int :=
  strtol10Run ([d1, d2, d3].dropWhile c_isspace)

/-- Value of a hexadecimal digit byte (defined on `isxdigit` bytes). -/
def hexDigitVal (c : Nat) : Nat :=
  if c ≤ 57 then c - 48 else c_toupper c - 55

/-- C `strtol(number, &pEnd, 16)` on the buffer `['0', d2, d3]`
(gsar.c:354-356: the leading byte has been overwritten with `'0'`, so no
whitespace or sign can occur), returning `some v` exactly when
`pEnd == number + 3`.  When `d2` is `x`/`X` the parse uses the `0x` prefix
form and needs `d3` to be a hex digit; otherwise both trailing bytes must
be hex digits. -/
def hexStrtol (d2 d3 : Nat) : Option Int :=
  if d2 = 120 ∨ d2 = 88 then
    if c_isxdigit d3 then some (hexDigitVal d3) else none
  else if c_isxdigit d2 ∧ c_isxdigit d3 then
    some (hexDigitVal d2 * 16 + hexDigitVal d3)
  else none

/-- Loop of `GetPattern` (gsar.c:324-374) over the remaining argument
string, carrying the bytes already stored.  `B` is the `PAT_BUFSIZ`
ceiling from the missing header; the code checks `pBuffer - pStart > B`
after each iteration.  A non-marker byte is copied; `::` stores one `':'`
(58); a lone `':'` needs at least three further bytes, which are fed to
`strtol` in decimal or (after an `x`) hexadecimal form, the resulting
`long` being truncated to a byte by the `(char)` cast (`emod 256`). -/
def getPatternAux (B : Nat) : List Nat → List Nat → Except GsarErr (List Nat)
  | [], acc => Except.ok acc
  | c :: rest, acc =>
    if c = 58 then
      match rest with
      | [] => Except.error (GsarErr.malformedPattern [])
      | r1 :: rtail =>
        if r1 = 58 then
          if (acc ++ [58]).length > B then Except.error GsarErr.patternTooLong
          else getPatternAux B rtail (acc ++ [58])
        else
          match rtail with
          | d2 :: d3 :: rest3 =>
            if c_tolower r1 = 120 then
              match hexStrtol d2 d3 with
              | some v =>
                if (acc ++ [((v.emod 256)).toNat]).length > B then
                  Except.error GsarErr.patternTooLong
                else getPatternAux B rest3 (acc ++ [((v.emod 256)).toNat])
              | none => Except.error (GsarErr.malformedPattern [d2, d3])
            else
              match strtol10 r1 d2 d3 with
              | some v =>
                if (acc ++ [((v.emod 256)).toNat]).length > B then
                  Except.error GsarErr.patternTooLong
                else getPatternAux B rest3 (acc ++ [((v.emod 256)).toNat])
              | none => Except.error (GsarErr.malformedPattern [r1, d2, d3])
          | _ => Except.error (GsarErr.malformedPattern [])
    else
      if (acc ++ [c]).length > B then Except.error GsarErr.patternTooLong
      else getPatternAux B rest (acc ++ [c])

/-- `GetPattern` (gsar.c:324-374): compile an escaped-text specification
into its byte buffer, with ceiling `B`. -/
def GetPattern (B : Nat) (s : List Nat) : Except GsarErr (List Nat) :=
  getPatternAux B s []

/-- Interleaving loop of `DoExpansion` (gsar.c:435-439): a zero byte after
every original byte. -/
def expandWide : List Nat → List Nat
  | [] => []
  | b :: r => b :: 0 :: expandWide r

/-- `DoExpansion` (gsar.c:422-440): aborts when twice the length exceeds
the `PAT_BUFSIZ` ceiling `B`, otherwise rewrites the buffer with a zero
byte following every original byte. -/
def DoExpansion (B : Nat) (buf : List Nat) : Except GsarErr (List Nat) :=
  if buf.length * 2 > B then Except.error GsarErr.patternTooLong
  else Except.ok (expandWide buf)

theorem gp_step_copy (B c : Nat) (rest acc : List Nat) (hc : ¬ c = 58)
    (hlen : acc.length + 1 ≤ B) :
    getPatternAux B (c :: rest) acc = getPatternAux B rest (acc ++ [c]) := by
  unfold getPatternAux
  rw [if_neg hc]
  rw [if_neg (show ¬ ((acc ++ [c]).length > B) by
    simp only [List.length_append, List.length_cons, List.length_nil]; omega)]
  rw [getPatternAux.eq_def]

theorem gp_step_colon2 (B : Nat) (rest acc : List Nat)
    (hlen : acc.length + 1 ≤ B) :
    getPatternAux B (58 :: 58 :: rest) acc = getPatternAux B rest (acc ++ [58]) := by
  unfold getPatternAux
  rw [if_pos rfl]
  dsimp only
  rw [if_pos rfl]
  have hB : ¬ ((acc ++ [58]).length > B) := by
    simp only [List.length_append, List.length_cons, List.length_nil]; omega
  simp only [if_neg hB]
  rw [getPatternAux.eq_def]

theorem gp_step_dec (B d1 d2 d3 : Nat) (rest acc : List Nat) (v : Int)
    (h1 : ¬ d1 = 58) (hx : ¬ c_tolower d1 = 120) (hv : strtol10 d1 d2 d3 = some v)
    (hlen : acc.length + 1 ≤ B) :
    getPatternAux B (58 :: d1 :: d2 :: d3 :: rest) acc
      = getPatternAux B rest (acc ++ [(v.emod 256).toNat]) := by
  unfold getPatternAux
  rw [if_pos rfl]
  dsimp only
  rw [if_neg h1, if_neg hx, hv]
  dsimp only
  have hB : ¬ ((acc ++ [(v.emod 256).toNat]).length > B) := by
    simp only [List.length_append, List.length_cons, List.length_nil]; omega
  simp only [if_neg hB]
  rw [getPatternAux.eq_def]

theorem gp_step_hex (B d1 d2 d3 : Nat) (rest acc : List Nat) (v : Int)
    (h1 : ¬ d1 = 58) (hx : c_tolower d1 = 120) (hv : hexStrtol d2 d3 = some v)
    (hlen : acc.length + 1 ≤ B) :
    getPatternAux B (58 :: d1 :: d2 :: d3 :: rest) acc
      = getPatternAux B rest (acc ++ [(v.emod 256).toNat]) := by
  unfold getPatternAux
  rw [if_pos rfl]
  dsimp only
  rw [if_neg h1, if_pos hx, hv]
  dsimp only
  have hB : ¬ ((acc ++ [(v.emod 256).toNat]).length > B) := by
    simp only [List.length_append, List.length_cons, List.length_nil]; omega
  simp only [if_neg hB]
  rw [getPatternAux.eq_def]

theorem gp_lone (B : Nat) (tail acc : List Nat) (h3 : tail.length < 3)
    (ht : ∀ t ts, tail = t :: ts → ¬ t = 58) :
    getPatternAux B (58 :: tail) acc = Except.error (GsarErr.malformedPattern []) := by
  match tail, h3 with
  | [], _ => unfold getPatternAux; rw [if_pos rfl]
  | [t], _ =>
    unfold getPatternAux
    rw [if_pos rfl]
    dsimp only
    rw [if_neg (ht t [] rfl)]
  | [t, t2], _ =>
    unfold getPatternAux
    rw [if_pos rfl]
    dsimp only
    rw [if_neg (ht t [t2] rfl)]

theorem gp_copy_chain (B : Nat) :
    ∀ (pre acc tl : List Nat), (∀ c ∈ pre, ¬ c = 58) →
      acc.length + pre.length ≤ B →
      getPatternAux B (pre ++ tl) acc = getPatternAux B tl (acc ++ pre)
  | [], acc, tl, _, _ => by simp
  | c :: pr, acc, tl, h, hlen => by
    have hc : ¬ c = 58 := h c (by simp)
    have hlen' : acc.length + 1 ≤ B := by
      simp only [List.length_cons] at hlen; omega
    rw [List.cons_append, gp_step_copy B c (pr ++ tl) acc hc hlen']
    have ih := gp_copy_chain B pr (acc ++ [c]) tl (fun x hx => h x (by simp [hx]))
      (by simp only [List.length_append, List.length_cons, List.length_nil] at hlen ⊢; omega)
    rw [ih]
    simp [List.append_assoc]

/-- File-system view of one input file while `SearchReplace` or
`OneSearchReplace` processes it: the original file, the single output
(temporary) file, and the `fCriticalPart` interrupt-suppression flag
(gsar.c:72-75). -/
structure FileSys where
  origContent : List Nat
  origExists : Bool
  tmpExists : Bool
  tmpContent : List Nat
  critical : Bool
deriving DecidableEq, Repr

/-- Primitive file/flag operations the commit sequences perform. -/
inductive CommitOp : Type where
  | openTmp : CommitOp
  | setCritical : Bool → CommitOp
  | removeTmp : CommitOp
  | removeOrig : CommitOp
  | renameTmp : CommitOp
  | exitFail : CommitOp
deriving DecidableEq, Repr

/-- Effect of one primitive operation.  `newC` is the output content the
search/replace pass produced; `openTmp` models `fopen(pOutFile, "wb")`
plus the completed write, `removeTmp`/`removeOrig` model `remove`,
`renameTmp` models `rename(pOutFile, pInputFile)`, `exitFail` models
`exit(EXIT_FAILURE)` (no file effect beyond what already happened). -/
def applyOp (newC : List Nat) (fs : FileSys) : CommitOp → FileSys
  | CommitOp.openTmp => { fs with tmpExists := true, tmpContent := newC }
  | CommitOp.setCritical b => { fs with critical := b }
  | CommitOp.removeTmp => { fs with tmpExists := false, tmpContent := [] }
  | CommitOp.removeOrig => { fs with origExists := false, origContent := [] }
  | CommitOp.renameTmp =>
    { origContent := fs.tmpContent, origExists := true,
      tmpExists := false, tmpContent := [], critical := fs.critical }
  | CommitOp.exitFail => fs

/-- Operation sequence of `SearchReplace` for one file, by match count
(gsar.c:896-970): open the temp output, run the pass, set
`fCriticalPart`, then either clean up the temp (write error, line
938-944; zero matches, line 946-950) or delete the original and rename
the temp over it (lines 951-968), finally clear `fCriticalPart` (969). -/
def searchReplaceOps (n : Int) : List CommitOp :=
  [CommitOp.openTmp, CommitOp.setCritical true] ++
    (if n = -1 then [CommitOp.removeTmp, CommitOp.exitFail]
     else if n = 0 then [CommitOp.removeTmp, CommitOp.setCritical false]
     else [CommitOp.removeOrig, CommitOp.renameTmp, CommitOp.setCritical false])

/-- Operation sequence of `OneSearchReplace` (gsar.c:792-868): the named
output file plays the temp role; on a write error or zero matches it is
removed, otherwise it is simply kept — there is no delete/rename of the
input. -/
def oneSearchReplaceOps (n : Int) : List CommitOp :=
  [CommitOp.openTmp, CommitOp.setCritical true] ++
    (if n = -1 then [CommitOp.removeTmp, CommitOp.exitFail]
     else if n = 0 then [CommitOp.removeTmp, CommitOp.setCritical false]
     else [CommitOp.setCritical false])

/-- Run a whole operation sequence. -/
def runOps (newC : List Nat) (fs : FileSys) (ops : List CommitOp) : FileSys :=
  ops.foldl (applyOp newC) fs

/-- `CtrlBreak` handler (gsar.c:181-195): while `fCriticalPart` is set it
returns at once, touching nothing and not terminating; otherwise it
removes the pending output file (search-replace, non-filter, `pOutFile`
set) and exits.  The returned flag is `true` when the process
terminates. -/
def ctrlBreak (fs : FileSys) : FileSys × Bool :=
  if fs.critical then (fs, false)
  else ({ fs with tmpExists := false, tmpContent := [] }, true)

/-- A concrete starting state used to instantiate the commit theorems. -/
def sampleFS : FileSys :=
  { origContent := [1], origExists := true, tmpExists := false,
    tmpContent := [], critical := false }

/-- Outcome of the summary logic in `StreamSearchReplace`. -/
inductive StreamReport : Type where
  | fatalWriteError : StreamReport
  | summary : StreamReport
  | silent : StreamReport
deriving DecidableEq, Repr

/-- Reporting logic of `StreamSearchReplace` (gsar.c:697-718): the search
branch prints the match summary for `nMatches > 0`; the search-replace
branch aborts on the write-failure signal `-1` and prints the
occurrence-count summary only for `nMatches > 1`. -/
def streamSearchReplaceReport (fSearchReplace : Bool) (nMatches : Int) : StreamReport :=
  if fSearchReplace = false then
    (if nMatches > 0 then StreamReport.summary else StreamReport.silent)
  else if nMatches = -1 then StreamReport.fatalWriteError
  else if nMatches > 1 then StreamReport.summary
  else StreamReport.silent

/-- A byte variant as claim C10 describes it: the same byte, or its
upper-cased or lower-cased form. -/
def caseVariant (c c' : Nat) : Prop :=
  c' = c ∨ c' = c_toupper c ∨ c' = c_tolower c

theorem c_toupper_toupper (c : Nat) : c_toupper (c_toupper c) = c_toupper c := by
  simp only [c_toupper]
  split_ifs <;> omega

theorem c_toupper_tolower (c : Nat) : c_toupper (c_tolower c) = c_toupper c := by
  simp only [c_toupper, c_tolower]
  split_ifs <;> omega

theorem c_isxdigit_toupper (c : Nat) : c_isxdigit (c_toupper c) = c_isxdigit c := by
  simp only [c_isxdigit, c_toupper]
  split_ifs with h
  · simp only [decide_eq_decide]; omega
  · rfl

theorem c_isxdigit_tolower (c : Nat) : c_isxdigit (c_tolower c) = c_isxdigit c := by
  simp only [c_isxdigit, c_tolower]
  split_ifs with h
  · simp only [decide_eq_decide]; omega
  · rfl

theorem caseVariant_toupper {c c' : Nat} (h : caseVariant c c') :
    c_toupper c' = c_toupper c := by
  rcases h with h | h | h <;> subst h
  · rfl
  · exact c_toupper_toupper c
  · exact c_toupper_tolower c

theorem caseVariant_isxdigit {c c' : Nat} (h : caseVariant c c') :
    c_isxdigit c' = c_isxdigit c := by
  rcases h with h | h | h <;> subst h
  · rfl
  · exact c_isxdigit_toupper c
  · exact c_isxdigit_tolower c

theorem Text2Byte_congr {c0 c1 c0' c1' : Nat} (h0 : c_toupper c0' = c_toupper c0)
    (h1 : c_toupper c1' = c_toupper c1) : Text2Byte c0' c1' = Text2Byte c0 c1 := by
  simp only [Text2Byte, text2ByteNib, h0, h1]

theorem parseHex_caseVar :
    ∀ (s s' : List Nat), List.Forall₂ caseVariant s s' → firstBadEven s = none →
      firstBadEven s' = none ∧ hexDecodeSpec s' = hexDecodeSpec s
  | [], s', h, _ => by
    cases h
    exact ⟨rfl, rfl⟩
  | [c], s', h, hb => by
    cases h with
    | cons r0 h1 =>
      cases h1
      by_cases hc : c_isxdigit c = false
      · simp [firstBadEven, hc] at hb
      · simp only [Bool.not_eq_false] at hc
        have hc' : c_isxdigit _ = true := (caseVariant_isxdigit r0).trans hc
        refine ⟨by simp [firstBadEven, hc'], rfl⟩
  | c0 :: c1 :: rest, s', h, hb => by
    cases h with
    | cons r0 h1 =>
      cases h1 with
      | cons r1 h2 =>
        by_cases hc : c_isxdigit c0 = false
        · simp [firstBadEven, hc] at hb
        · simp only [Bool.not_eq_false] at hc
          have hbr : firstBadEven rest = none := by
            simpa [firstBadEven, hc] using hb
          have ih := parseHex_caseVar rest _ h2 hbr
          have hc' : c_isxdigit _ = true := (caseVariant_isxdigit r0).trans hc
          refine ⟨by simp [firstBadEven, hc', ih.1], ?_⟩
          simp only [hexDecodeSpec, ih.2,
            Text2Byte_congr (caseVariant_toupper r0) (caseVariant_toupper r1)]

theorem expandWide_length : ∀ l : List Nat, (expandWide l).length = 2 * l.length
  | [] => rfl
  | b :: r => by
    simp only [expandWide, List.length_cons, expandWide_length r]
    omega

theorem expandWide_get? :
    ∀ (l : List Nat) (i : Nat),
      (expandWide l).get? (2 * i) = l.get? i ∧
      (expandWide l).get? (2 * i + 1) = (if i < l.length then some 0 else none)
  | [], i => by simp [expandWide]
  | b :: r, 0 => by simp [expandWide]
  | b :: r, i + 1 => by
    have h2 : 2 * (i + 1) = 2 * i + 1 + 1 := by ring
    have ih := expandWide_get? r i
    constructor
    · rw [h2]
      simpa [expandWide] using ih.1
    · rw [h2]
      simp only [expandWide, List.get?_cons_succ, List.length_cons]
      rw [ih.2]
      by_cases h : i < r.length
      · rw [if_pos h, if_pos (by omega)]
      · rw [if_neg h, if_neg (by omega)]

theorem parseHexAux_zeros :
    ∀ n : Nat, parseHexAux (List.replicate (2 * n) 48) = Except.ok (List.replicate n 0)
  | 0 => rfl
  | n + 1 => by
    have h2 : 2 * (n + 1) = 2 * n + 1 + 1 := by ring
    have ih := parseHexAux_zeros n
    have e1 : List.replicate (2 * n + 1 + 1) 48 = 48 :: 48 :: List.replicate (2 * n) 48 := by
      simp [List.replicate_succ]
    have e2 : List.replicate (n + 1) 0 = 0 :: List.replicate n 0 := by
      simp [List.replicate_succ]
    rw [h2, e1, e2]
    have hx : c_isxdigit 48 = true := by decide
    have hT : Text2Byte 48 48 = 0 := by decide
    simp [parseHexAux, hx, ih, Except.map, hT]

/-- C1 (amended): `ParseHexLine` fails with `MalformedPattern` on odd
length; on even length it decodes each adjacent digit pair in order
(output length = input length / 2) when every even-index (pair-initial)
byte is a hex digit — in particular when the whole string is hexadecimal
— and fails with `MalformedPattern` naming the first offending even-index
byte otherwise.  A non-hex byte at an odd index is not detected: its pair
is decoded by the same digit-folding arithmetic. -/
theorem parseHexLine_spec (s : List Nat) :
    ParseHexLine s =
      (if s.length % 2 = 1 then Except.error (GsarErr.malformedPattern [])
       else match firstBadEven s with
         | some c => Except.error (GsarErr.malformedPattern [c])
         | none => Except.ok (hexDecodeSpec s))
    ∧ (hexDecodeSpec s).length = s.length / 2
    ∧ ((∀ c ∈ s, c_isxdigit c = true) → firstBadEven s = none) := by
  refine ⟨?_, hexDecodeSpec_length s, firstBadEven_none_of_all_hex s⟩
  by_cases h : s.length % 2 = 1
  · simp [ParseHexLine, h]
  · have h0 : s.length % 2 = 0 := by omega
    unfold ParseHexLine
    rw [if_neg h, if_neg h]
    exact parseHexAux_eq s h0

/-- C1 counterexample: the specification `0g` has even length and contains
the non-hex digit `g` (byte 103), yet `ParseHexLine` succeeds and returns
the single byte 0 instead of failing with `MalformedPattern`. -/
theorem parseHexLine_oddIndexUndetected :
    ParseHexLine [48, 103] = Except.ok [0] ∧ c_isxdigit 103 = false := by
  constructor
  · rfl
  · decide

/-- Witness for C1's theorem: on `01af` every hypothesis is satisfiable
and the decode produces the bytes 1 and 0xAF. -/
theorem parseHexLine_spec_witness :
    ParseHexLine [48, 49, 97, 102] = Except.ok [1, 175]
    ∧ firstBadEven [48, 49, 97, 102] = none := by
  have h := parseHexLine_spec [48, 49, 97, 102]
  refine ⟨?_, h.2.2 (by decide)⟩
  rw [h.1]
  rfl

/-- C5 (code_bug): `ParseHexLine` enforces no length ceiling whatsoever —
for every ceiling `B` the all-hex specification of `2*(B+1)` zero digits
compiles successfully to `B+1` bytes, one more than fits the fixed
`PAT_BUFSIZ`-byte pattern buffer, with no `PatternTooLong` failure. -/
theorem parseHexLine_unbounded (B : Nat) :
    ParseHexLine (List.replicate (2 * (B + 1)) 48) = Except.ok (List.replicate (B + 1) 0)
    ∧ (List.replicate (B + 1) 0).length = B + 1
    ∧ B + 1 > B := by
  refine ⟨?_, by simp, by omega⟩
  unfold ParseHexLine
  rw [if_neg (by rw [List.length_replicate]; omega)]
  exact parseHexAux_zeros (B + 1)

/-- C10: hex-literal compilation is case-insensitive — for every
even-length all-hex specification, replacing any letters by their other
case (pointwise `caseVariant`) yields the identical byte sequence. -/
theorem parseHexLine_caseInsensitive (s s' : List Nat)
    (heven : s.length % 2 = 0)
    (hhex : ∀ c ∈ s, c_isxdigit c = true)
    (hvar : List.Forall₂ caseVariant s s') :
    ParseHexLine s = Except.ok (hexDecodeSpec s)
    ∧ ParseHexLine s' = Except.ok (hexDecodeSpec s) := by
  have hb : firstBadEven s = none := firstBadEven_none_of_all_hex s hhex
  have hlen : s.length = s'.length := List.Forall₂.length_eq hvar
  have hcv := parseHex_caseVar s s' hvar hb
  constructor
  · unfold ParseHexLine
    rw [if_neg (by omega), parseHexAux_eq s heven, hb]
  · unfold ParseHexLine
    rw [if_neg (by omega), parseHexAux_eq s' (by omega), hcv.1, hcv.2]

/-- Witness for C10's theorem: `2f` and `2F` both decode to byte 0x2F. -/
theorem parseHexLine_caseInsensitive_witness :
    ParseHexLine [50, 102] = Except.ok [47] ∧ ParseHexLine [50, 70] = Except.ok [47] := by
  have hv : List.Forall₂ caseVariant [50, 102] [50, 70] :=
    List.Forall₂.cons (Or.inl rfl)
      (List.Forall₂.cons (Or.inr (Or.inl (by unfold c_toupper; decide))) List.Forall₂.nil)
  have h := parseHexLine_caseInsensitive [50, 102] [50, 70] (by decide) (by decide) hv
  exact ⟨by rw [h.1]; rfl, by rw [h.2]; rfl⟩

theorem gp_nil (B : Nat) (acc : List Nat) : getPatternAux B [] acc = Except.ok acc := rfl

/-- C2: `GetPattern` compiles the escaped-text specification
`a:: b:120c:x41` to exactly the seven bytes `a`, `:`, space, `b`, 120,
`c`, 0x41, and any specification whose compilation reaches a lone marker
`:` followed by fewer than three bytes fails with `MalformedPattern`. -/
theorem getPattern_escapes (B : Nat) (hB : 7 ≤ B) :
    GetPattern B [97, 58, 58, 32, 98, 58, 49, 50, 48, 99, 58, 120, 52, 49]
      = Except.ok [97, 58, 32, 98, 120, 99, 65]
    ∧ (∀ tl acc : List Nat, tl.length < 3 → (∀ t ts, tl = t :: ts → ¬ t = 58) →
        getPatternAux B (58 :: tl) acc = Except.error (GsarErr.malformedPattern []))
    ∧ ∀ pre tl : List Nat, (∀ c ∈ pre, ¬ c = 58) → pre.length ≤ B →
        tl.length < 3 → (∀ t ts, tl = t :: ts → ¬ t = 58) →
        GetPattern B (pre ++ 58 :: tl) = Except.error (GsarErr.malformedPattern []) := by
  refine ⟨?_, fun tl acc h3 ht => gp_lone B tl acc h3 ht, ?_⟩
  · unfold GetPattern
    rw [gp_step_copy B 97 _ [] (by decide) (by simp; omega)]
    rw [gp_step_colon2 B _ _ (by simp; omega)]
    rw [gp_step_copy B 32 _ _ (by decide) (by simp; omega)]
    rw [gp_step_copy B 98 _ _ (by decide) (by simp; omega)]
    rw [gp_step_dec B 49 50 48 _ _ 120 (by decide) (by decide) (by decide) (by simp; omega)]
    rw [gp_step_copy B 99 _ _ (by decide) (by simp; omega)]
    rw [gp_step_hex B 120 52 49 _ _ 65 (by decide) (by decide) (by decide) (by simp; omega)]
    rfl
  · intro pre tl hpre hlen h3 ht
    unfold GetPattern
    rw [gp_copy_chain B pre [] (58 :: tl) hpre (by simpa using hlen)]
    rw [List.nil_append]
    exact gp_lone B tl pre h3 ht

/-- Witness for C2's theorem at ceiling 256: the example compiles to its
seven bytes, and `a:` (a trailing lone marker) fails. -/
theorem getPattern_escapes_witness :
    GetPattern 256 [97, 58, 58, 32, 98, 58, 49, 50, 48, 99, 58, 120, 52, 49]
      = Except.ok [97, 58, 32, 98, 120, 99, 65]
    ∧ GetPattern 256 [97, 58] = Except.error (GsarErr.malformedPattern []) := by
  have h := getPattern_escapes 256 (by omega)
  refine ⟨h.1, ?_⟩
  have h2 := h.2.2 [97] [] (by decide) (by decide) (by decide)
    (fun t ts hts => by simp at hts)
  simpa using h2

/-- C3 (amended): a lone marker followed by three decimal digits always
decodes to the byte whose value is the three-digit number reduced modulo
256 — values above 255 wrap through the `(char)` cast instead of being
rejected. -/
theorem getPattern_threeDecimalDigits (B d1 d2 d3 : Nat) (hB : 1 ≤ B)
    (h1 : c_isdigit d1 = true) (h2 : c_isdigit d2 = true) (h3 : c_isdigit d3 = true) :
    GetPattern B [58, d1, d2, d3]
      = Except.ok [(100 * (d1 - 48) + 10 * (d2 - 48) + (d3 - 48)) % 256] := by
  have hd1 : 48 ≤ d1 ∧ d1 ≤ 57 := by simpa [c_isdigit] using h1
  have hd2 : 48 ≤ d2 ∧ d2 ≤ 57 := by simpa [c_isdigit] using h2
  have hd3 : 48 ≤ d3 ∧ d3 ≤ 57 := by simpa [c_isdigit] using h3
  have hne : ¬ d1 = 58 := by omega
  have hlow : c_tolower d1 = d1 := by unfold c_tolower; rw [if_neg (by omega)]
  have hx : ¬ c_tolower d1 = 120 := by rw [hlow]; omega
  have hs : c_isspace d1 = false := by simp [c_isspace]; omega
  have hv : strtol10 d1 d2 d3
      = some ((100 * (d1 - 48) + 10 * (d2 - 48) + (d3 - 48) : Nat) : Int) := by
    unfold strtol10 strtol10Run
    rw [List.dropWhile_cons]
    simp only [hs, Bool.false_eq_true, if_false]
    rw [if_neg (by omega), if_neg (by omega), if_pos (by simp [List.all_cons, h1, h2, h3])]
    unfold decVal
    simp only [List.foldl]
    congr 1
    push_cast [hd1.1, hd2.1, hd3.1]
    ring
  unfold GetPattern
  rw [gp_step_dec B d1 d2 d3 [] []
    ((100 * (d1 - 48) + 10 * (d2 - 48) + (d3 - 48) : Nat) : Int) hne hx hv (by simp; omega)]
  rw [gp_nil]
  congr 1

/-- Witness for C3's theorem: `:120` compiles to the single byte 120. -/
theorem getPattern_threeDecimalDigits_witness :
    GetPattern 256 [58, 49, 50, 48] = Except.ok [120] := by
  have h := getPattern_threeDecimalDigits 256 49 50 48 (by omega)
    (by decide) (by decide) (by decide)
  rw [h]

/-- C3 counterexample: `:999` exceeds 255 yet compiles successfully to
the single byte 231 (999 mod 256) instead of failing with
`MalformedPattern`. -/
theorem getPattern_nineNineNine :
    GetPattern 256 [58, 57, 57, 57] = Except.ok [231] := by rfl

/-- C4: `DoExpansion` on an n-byte buffer whose doubled length fits the
ceiling produces the 2n-byte buffer with the original byte at every even
index and a zero byte at every odd index. -/
theorem doExpansion_spec (B : Nat) (buf : List Nat) (h : 2 * buf.length ≤ B) :
    DoExpansion B buf = Except.ok (expandWide buf)
    ∧ (expandWide buf).length = 2 * buf.length
    ∧ ∀ i, i < buf.length →
        (expandWide buf).get? (2 * i) = buf.get? i
        ∧ (expandWide buf).get? (2 * i + 1) = some 0 := by
  refine ⟨?_, expandWide_length buf, ?_⟩
  · unfold DoExpansion
    rw [if_neg (by omega)]
  · intro i hi
    have hg := expandWide_get? buf i
    exact ⟨hg.1, by rw [hg.2, if_pos hi]⟩

/-- Witness for C4's theorem: expanding `[1, 2, 3]` under ceiling 8. -/
theorem doExpansion_spec_witness :
    DoExpansion 8 [1, 2, 3] = Except.ok [1, 0, 2, 0, 3, 0]
    ∧ (expandWide [1, 2, 3]).get? 2 = some 2 := by
  have h := doExpansion_spec 8 [1, 2, 3] (by decide)
  refine ⟨by rw [h.1]; rfl, ?_⟩
  have hg := (h.2.2 1 (by decide)).1
  simpa using hg

/-- C6: when the search-replace pass reports zero matches, both
`SearchReplace` (in-place) and `OneSearchReplace` (explicit output) delete
the temporary/output file, perform no rename, and leave the original
input file untouched. -/
theorem commitZeroMatches (newC : List Nat) (fs : FileSys) :
    (runOps newC fs (searchReplaceOps 0)).tmpExists = false
    ∧ (runOps newC fs (searchReplaceOps 0)).origExists = fs.origExists
    ∧ (runOps newC fs (searchReplaceOps 0)).origContent = fs.origContent
    ∧ CommitOp.renameTmp ∉ searchReplaceOps 0
    ∧ (runOps newC fs (oneSearchReplaceOps 0)).tmpExists = false
    ∧ (runOps newC fs (oneSearchReplaceOps 0)).origExists = fs.origExists
    ∧ (runOps newC fs (oneSearchReplaceOps 0)).origContent = fs.origContent
    ∧ CommitOp.renameTmp ∉ oneSearchReplaceOps 0 := by
  have e1 : searchReplaceOps 0 = [CommitOp.openTmp, CommitOp.setCritical true,
      CommitOp.removeTmp, CommitOp.setCritical false] := rfl
  have e2 : oneSearchReplaceOps 0 = [CommitOp.openTmp, CommitOp.setCritical true,
      CommitOp.removeTmp, CommitOp.setCritical false] := rfl
  refine ⟨?_, ?_, ?_, by decide, ?_, ?_, ?_, by decide⟩ <;>
    simp [runOps, e1, e2, applyOp]

/-- C7: in the in-place commit for at least one match, the
`fCriticalPart` flag is raised before the original file is deleted and
stays raised through the rename; while it is raised the `CtrlBreak`
handler returns immediately, removing nothing and not terminating the
process. -/
theorem criticalSection (n : Int) (hn : 1 ≤ n) (newC : List Nat) (fs : FileSys) :
    (List.scanl (applyOp newC) fs (searchReplaceOps n)).map FileSys.critical
      = [fs.critical, fs.critical, true, true, true, false]
    ∧ (searchReplaceOps n).get? 2 = some CommitOp.removeOrig
    ∧ (searchReplaceOps n).get? 3 = some CommitOp.renameTmp
    ∧ ∀ g : FileSys, g.critical = true → ctrlBreak g = (g, false) := by
  have hops : searchReplaceOps n
      = [CommitOp.openTmp, CommitOp.setCritical true, CommitOp.removeOrig,
         CommitOp.renameTmp, CommitOp.setCritical false] := by
    unfold searchReplaceOps
    rw [if_neg (by omega), if_neg (by omega)]
    rfl
  refine ⟨?_, by rw [hops]; rfl, by rw [hops]; rfl,
    fun g hg => by simp [ctrlBreak, hg]⟩
  rw [hops]
  simp [List.scanl, applyOp]

/-- Witness for C7's theorem at one match from the sample state. -/
theorem criticalSection_witness :
    (List.scanl (applyOp []) sampleFS (searchReplaceOps 1)).map FileSys.critical
      = [false, false, true, true, true, false]
    ∧ ctrlBreak { sampleFS with critical := true }
      = ({ sampleFS with critical := true }, false) := by
  have h := criticalSection 1 (by omega) [] sampleFS
  exact ⟨by rw [h.1]; rfl, h.2.2.2 _ rfl⟩

/-- C8 (code_bug): `StreamSearchReplace`'s replace branch reports the
write-failure signal `-1` as fatal and prints the occurrence summary for
counts above one, but prints nothing at all for exactly one occurrence —
its guard is `nMatches > 1` even though the search branch prints for any
positive count and the line's own pluralization handles the count 1. -/
theorem streamReport_matchCounts :
    streamSearchReplaceReport true 1 = StreamReport.silent
    ∧ streamSearchReplaceReport true (-1) = StreamReport.fatalWriteError
    ∧ streamSearchReplaceReport true 2 = StreamReport.summary
    ∧ streamSearchReplaceReport false 1 = StreamReport.summary := by
  decide

/-- C9 counterexample: in the in-place commit trace for one match, at the
instant after the original is removed and before the rename (state index
3), the temporary file exists while the original input file no longer
does. -/
theorem tmpWithoutOriginal :
    ((List.scanl (applyOp [2]) sampleFS (searchReplaceOps 1)).map
        (fun s => (s.tmpExists, s.origExists))).get? 3 = some (true, false) := by
  rfl

/-- C9 (amended): exactly one temporary output file is ever created while
one input file is processed, and at every instant at which the
interrupt-suppression flag is clear, existence of the temporary implies
the original input file has not been deleted or renamed over; inside the
suppressed commit section the original is removed first and the temporary
immediately renamed over it. -/
theorem tmpInvariant (n : Int) (newC : List Nat) (fs : FileSys)
    (h1 : fs.tmpExists = false) (h2 : fs.origExists = true) :
    (searchReplaceOps n).count CommitOp.openTmp = 1
    ∧ ∀ s ∈ List.scanl (applyOp newC) fs (searchReplaceOps n),
        s.critical = false → s.tmpExists = true → s.origExists = true := by
  by_cases hm1 : n = -1
  · subst hm1
    have hops : searchReplaceOps (-1) = [CommitOp.openTmp, CommitOp.setCritical true,
        CommitOp.removeTmp, CommitOp.exitFail] := rfl
    rw [hops]
    refine ⟨rfl, ?_⟩
    intro s hs
    simp only [List.scanl, List.mem_cons, List.not_mem_nil, or_false] at hs
    rcases hs with rfl | rfl | rfl | rfl | rfl <;> simp [applyOp, h1, h2]
  · by_cases hm0 : n = 0
    · subst hm0
      have hops : searchReplaceOps 0 = [CommitOp.openTmp, CommitOp.setCritical true,
          CommitOp.removeTmp, CommitOp.setCritical false] := rfl
      rw [hops]
      refine ⟨rfl, ?_⟩
      intro s hs
      simp only [List.scanl, List.mem_cons, List.not_mem_nil, or_false] at hs
      rcases hs with rfl | rfl | rfl | rfl | rfl <;> simp [applyOp, h1, h2]
    · have hops : searchReplaceOps n = [CommitOp.openTmp, CommitOp.setCritical true,
          CommitOp.removeOrig, CommitOp.renameTmp, CommitOp.setCritical false] := by
        unfold searchReplaceOps
        rw [if_neg hm1, if_neg hm0]
        rfl
      rw [hops]
      refine ⟨rfl, ?_⟩
      intro s hs
      simp only [List.scanl, List.mem_cons, List.not_mem_nil, or_false] at hs
      rcases hs with rfl | rfl | rfl | rfl | rfl | rfl <;> simp [applyOp, h1, h2]

/-- Witness for C9's amended theorem at one match from the sample state. -/
theorem tmpInvariant_witness :
    (searchReplaceOps 1).count CommitOp.openTmp = 1 ∧ sampleFS.origExists = true := by
  have h := tmpInvariant 1 [] sampleFS rfl rfl
  exact ⟨h.1, rfl⟩
